import Mathlib

/-!
Shallow embedding of the mixxxlab streaming audio-analysis orchestrator
(src/pkg/analysis/lib/analyzer.cpp) and of the legacy whole-file analyzer
(src/analyzer/lib/analyzer.cpp), together with theorems settling the
specification claims about them.

Machine doubles/floats are idealized as rationals; C ints as integers.
External qm-dsp primitives (detection function, tempo tracker, downbeat
detector, segmenter) are parameters of the embedding: the orchestrator is
modelled exactly, the primitives are universally quantified functions.
-/

namespace Mixxxlab

/-- Default analysis parameters, from analyzer.cpp lines 26-39. -/
def kDefaultStepSecs : ℚ := 1161 / 100000

def kDefaultMaxBinHz : ℤ := 50

def kDefaultDBRise : ℚ := 3

def kDefaultInputTempo : ℚ := 120

def kDefaultAlpha : ℚ := 9 / 10

def kDefaultTightness : ℚ := 4

def kDefaultBeatsPerBar : ℤ := 4

def FEATURE_TYPE_CONSTQ : ℤ := 1

def kDefaultSegFeatureType : ℤ := FEATURE_TYPE_CONSTQ

def kDefaultSegHopSize : ℚ := 2 / 10

def kDefaultSegWindowSize : ℚ := 6 / 10

def kDefaultSegNumClusters : ℤ := 10

def kDefaultSegNumHMMStates : ℤ := 40

def DF_COMPLEXSD : ℤ := 4

def CUE_TYPE_PHRASE : ℤ := 2

def CUE_TYPE_SECTION : ℤ := 3

def kErrNotEnoughData : String := "Not enough audio data for beat detection"

def kErrNoValidResults : String := "No valid detection results"

def kErrNoBeats : String := "No beats detected"

def kErrNoMemory : String := "Memory allocation failed"

/-- Configuration for the analyzer (analyzer.h, struct AnalyzerConfig). -/
structure AnalyzerConfig where
  df_type : ℤ
  step_secs : ℚ
  max_bin_hz : ℤ
  db_rise : ℚ
  adaptive_whitening : ℤ
  input_tempo : ℚ
  constrain_tempo : ℤ
  alpha : ℚ
  tightness : ℚ
  beats_per_bar : ℤ
deriving Repr, DecidableEq

/-- Segmenter configuration (analyzer.h, struct AnalyzerSegmenterConfig). -/
structure AnalyzerSegmenterConfig where
  feature_type : ℤ
  hop_size : ℚ
  window_size : ℚ
  num_clusters : ℤ
  num_hmm_states : ℤ
deriving Repr, DecidableEq

/-- A single cue point (analyzer.h, struct CuePoint). -/
structure CuePoint where
  time : ℚ
  type : ℤ
  type_index : ℤ
  confidence : ℚ
deriving Repr, DecidableEq

/-- Segment info (analyzer.h, struct AnalyzerSegment). -/
structure AnalyzerSegment where
  start : ℚ
  end_ : ℚ
  type : ℤ
deriving Repr, DecidableEq

/-- analyzer_default_config (analyzer.cpp lines 149-162). -/
def analyzer_default_config : AnalyzerConfig where
  df_type := DF_COMPLEXSD
  step_secs := kDefaultStepSecs
  max_bin_hz := kDefaultMaxBinHz
  db_rise := kDefaultDBRise
  adaptive_whitening := 0
  input_tempo := kDefaultInputTempo
  constrain_tempo := 0
  alpha := kDefaultAlpha
  tightness := kDefaultTightness
  beats_per_bar := kDefaultBeatsPerBar

/-- segmenter_default_config (analyzer.cpp lines 164-172). -/
def segmenter_default_config : AnalyzerSegmenterConfig where
  feature_type := kDefaultSegFeatureType
  hop_size := kDefaultSegHopSize
  window_size := kDefaultSegWindowSize
  num_clusters := kDefaultSegNumClusters
  num_hmm_states := kDefaultSegNumHMMStates

/-- getEffectiveConfig (analyzer.cpp lines 88-96): a null pointer means defaults. -/
def getEffectiveConfig (config : Option AnalyzerConfig) : AnalyzerConfig :=
  match config with
  | some cfg => cfg
  | none => analyzer_default_config

/-- getEffectiveSegConfig (analyzer.cpp lines 98-106). -/
def getEffectiveSegConfig (config : Option AnalyzerSegmenterConfig) : AnalyzerSegmenterConfig :=
  match config with
  | some cfg => cfg
  | none => segmenter_default_config

/-- C++ static_cast from a real value to int truncates toward zero. -/
def truncToInt (q : ℚ) : ℤ :=
  if 0 ≤ q then ⌊q⌋ else ⌈q⌉

/-- Modelled from the spec: MathUtilities::nextPowerOfTwo of the external
qm-dsp library (not under src/), described in the spec as deriving the
window length as the next power of two: the smallest power of two that is
at least the argument, and at least 1. -/
def nextPowerOfTwo (x : ℤ) : ℤ :=
  2 ^ Nat.clog 2 x.toNat

/-- Effective step seconds used by the QMAnalyzer constructor
(analyzer.cpp line 134): non-positive falls back to the default. -/
def effStepSecs (cfg : AnalyzerConfig) : ℚ :=
  if cfg.step_secs > 0 then cfg.step_secs else kDefaultStepSecs

/-- Effective max bin Hz used by the QMAnalyzer constructor
(analyzer.cpp line 135). -/
def effMaxBinHz (cfg : AnalyzerConfig) : ℤ :=
  if cfg.max_bin_hz > 0 then cfg.max_bin_hz else kDefaultMaxBinHz

/-- Streaming analyzer state (analyzer.cpp, struct QMAnalyzer).
The overlap buffer is modelled as its filled prefix (the first
overlapPos entries); entries beyond that are never read before being
overwritten. The DetectionFunction object is external and stateless in
this model; detectionResults holds the accumulated DF values. -/
structure QMAnalyzer where
  sampleRate : ℤ
  channels : ℤ
  config : AnalyzerConfig
  stepSizeFrames : ℤ
  windowSize : ℤ
  detectionResults : List ℚ
  overlapBuf : List ℚ
  totalFramesProcessed : ℤ
  audioBuffer : List ℚ
deriving Repr, DecidableEq

/-- QMAnalyzer constructor (analyzer.cpp lines 127-144). -/
def QMAnalyzer.init (sr ch : ℤ) (cfg : AnalyzerConfig) : QMAnalyzer where
  sampleRate := sr
  channels := ch
  config := cfg
  stepSizeFrames := truncToInt ((sr : ℚ) * effStepSecs cfg)
  windowSize := nextPowerOfTwo (Int.tdiv sr (effMaxBinHz cfg))
  detectionResults := []
  overlapBuf := []
  totalFramesProcessed := 0
  audioBuffer := []

/-- analyzer_create (analyzer.cpp lines 303-315). Returns none (a null
handle) for invalid sample rate or channel count; allocation failure is
not modelled. -/
def analyzer_create (sample_rate channels : ℤ) (config : Option AnalyzerConfig) :
    Option QMAnalyzer :=
  if sample_rate ≤ 0 ∨ channels ≤ 0 ∨ channels > 2 then none
  else some (QMAnalyzer.init sample_rate channels (getEffectiveConfig config))

/-- downmixToMono (analyzer.cpp lines 45-50): stereo frames averaged. -/
def downmixToMono (frames : List (ℚ × ℚ)) : List ℚ :=
  frames.map (fun p => (p.1 + p.2) * (1 / 2))

/-- Overlap accumulator state: the filled prefix of the overlap buffer
(length = overlapPos) plus the sequence of windows handed to the
detection-function primitive so far, in emission order. -/
structure FrameAcc where
  buf : List ℚ
  windows : List (List ℚ)
deriving Repr, DecidableEq

/-- One iteration of the per-sample loop in analyzer_process
(analyzer.cpp lines 338-364): append the sample; when the buffer holds a
full window, emit a copy of it and shift left by the step size (or reset
to empty when the step is at least the window size). -/
def FrameAcc.push (windowSize step : ℕ) (st : FrameAcc) (x : ℚ) : FrameAcc :=
  let buf := st.buf ++ [x]
  if windowSize ≤ buf.length then
    { buf := if step < windowSize then buf.drop step else []
      windows := st.windows ++ [buf] }
  else
    { buf := buf, windows := st.windows }

/-- The per-sample loop run over a chunk of mono samples. -/
def FrameAcc.pushAll (windowSize step : ℕ) (st : FrameAcc) (xs : List ℚ) : FrameAcc :=
  xs.foldl (FrameAcc.push windowSize step) st

/-- analyzer_process (analyzer.cpp lines 317-368), with the input already
down-mixed to a mono stream (convertToDouble / downmixToMono applied by
the caller-side model) and the external DetectionFunction idealized as a
pure per-window function dfFun. Returns none for the -1 error on a null
analyzer, null samples, or zero frames (only the empty-input case is
representable here). -/
def analyzer_process (dfFun : List ℚ → ℚ) (a : QMAnalyzer) (mono : List ℚ) :
    Option QMAnalyzer :=
  if mono = [] then none
  else
    let acc0 : FrameAcc := { buf := a.overlapBuf, windows := [] }
    let acc := FrameAcc.pushAll a.windowSize.toNat a.stepSizeFrames.toNat acc0 mono
    some { a with
      audioBuffer := a.audioBuffer ++ mono
      overlapBuf := acc.buf
      totalFramesProcessed := a.totalFramesProcessed + mono.length
      detectionResults := a.detectionResults ++ acc.windows.map dfFun }

/-- Parameters handed to the external ClusterMeltSegmenter constructor
(analyzer.cpp lines 528-534). -/
structure SegParams where
  featureType : ℤ
  hopSize : ℚ
  windowSize : ℚ
  nHMMStates : ℤ
  nclusters : ℤ
deriving Repr, DecidableEq

/-- A raw segment as returned by the external segmenter: start and end
as sample indices, plus a type label. -/
structure RawSegment where
  start : ℕ
  end_ : ℕ
  type : ℤ
deriving Repr, DecidableEq

/-- Segmentation output of the external segmenter. -/
structure Segmentation where
  nsegtypes : ℤ
  segments : List RawSegment
deriving Repr, DecidableEq

/-- The external qm-dsp primitives the orchestrator calls, modelled as
pure functions of everything the corresponding C++ objects were given.
calculateBeatPeriod receives the trimmed DF sequence, the requested
beat-period length (df.size()/128 + 1), the tempo hint and the constrain
flag; calculateBeats receives the DF sequence, the period curve, alpha
and tightness and returns beat positions in DF-index units.
getBufferedAudio receives the sample rate, the step size and the audio
pushed block-wise into the DownBeat decimator; findDownBeats and
getBeatSD receive the decimated audio, the beat positions (DF units) and
the beats-per-bar setting. getWindowsize/getHopsize are the segmenter's
derived sizes; segment receives the constructor parameters, the sample
rate, the extracted feature windows, and the argument of the
segmenter.segment(m) call. -/
structure Prims where
  calculateBeatPeriod : List ℚ → ℕ → ℚ → Bool → List ℤ
  calculateBeats : List ℚ → List ℤ → ℚ → ℚ → List ℚ
  getBufferedAudio : ℤ → ℤ → List ℚ → List ℚ
  findDownBeats : List ℚ → List ℚ → ℤ → List ℤ
  getBeatSD : List ℚ → List ℚ → ℤ → List ℚ
  getWindowsize : SegParams → ℤ → ℕ
  getHopsize : SegParams → ℤ → ℕ
  segment : SegParams → ℤ → List (List ℚ) → ℤ → Segmentation

/-- Extended analysis result (analyzer.h, struct AnalyzerResultEx).
calloc zero-initialization is the field defaults; array/count pairs are
lists; cue_points here holds the list BEFORE the std::sort call of
analyzer.cpp lines 606-607, whose unstable-sort semantics is the
relation analyzer_finalize_rel below. -/
structure AnalyzerResultEx where
  bpm : ℚ := 0
  beats : List ℚ := []
  sample_rate : ℤ := 0
  total_frames : ℤ := 0
  duration : ℚ := 0
  error : Option String := none
  detection_function : List ℚ := []
  step_size_frames : ℤ := 0
  window_size : ℤ := 0
  beat_periods : List ℤ := []
  downbeats : List ℤ := []
  beat_spectral_diff : List ℚ := []
  segments : List AnalyzerSegment := []
  num_segment_types : ℤ := 0
  cue_points : List CuePoint := []
deriving Repr, DecidableEq

/-- The trailing-trim loop of analyzer_finalize (analyzer.cpp lines
402-404): nonZeroCount counts the values kept once trailing
zero-or-negative DF values are removed; this is the kept prefix itself. -/
def stripTrailingNonPos (l : List ℚ) : List ℚ :=
  (l.reverse.dropWhile (fun x => x ≤ 0)).reverse

/-- The BPM interval accumulation loop of analyzer_finalize (analyzer.cpp
lines 470-473): the sum of consecutive beat-time differences. -/
def totalInterval : List ℚ → ℚ
  | [] => 0
  | [_] => 0
  | a :: b :: t => (b - a) + totalInterval (b :: t)

/-- The feature-extraction loop of analyzer_finalize (analyzer.cpp lines
547-550): the audio slices of length w fed to extractFeatures, starting
at multiples of the hop h while they fit. An h of zero would loop forever
in C++ and yields no windows here. -/
def segWindows (audio : List ℚ) (w h : ℕ) : List (List ℚ) :=
  if h = 0 then []
  else (List.range (if w ≤ audio.length then (audio.length - w) / h + 1 else 0)).map
    (fun j => (audio.drop (j * h)).take w)

/-- The phrase-cue loop of analyzer_finalize (analyzer.cpp lines
577-591): every 8th downbeat whose beat index is in range becomes a
phrase cue at that beat's time, confidence 0.8, type_index i/8. -/
def phraseCues (downbeats : List ℤ) (beatsSec : List ℚ) : List CuePoint :=
  ((List.range downbeats.length).filter (fun i => i % 8 = 0)).filterMap
    (fun i =>
      let beatIdx := downbeats.getD i 0
      if 0 ≤ beatIdx ∧ beatIdx.toNat < beatsSec.length then
        some { time := beatsSec.getD beatIdx.toNat 0
               type := CUE_TYPE_PHRASE
               type_index := (i : ℤ) / 8
               confidence := 8 / 10 }
      else none)

/-- The section-cue loop of analyzer_finalize (analyzer.cpp lines
594-603): one cue per segment at its start, confidence 0.7. -/
def sectionCues (segments : List AnalyzerSegment) : List CuePoint :=
  segments.map (fun s =>
    { time := s.start
      type := CUE_TYPE_SECTION
      type_index := s.type
      confidence := 7 / 10 })

/-- The effective tempo hint used at finalize (analyzer.cpp lines 423-424). -/
def effInputTempo (cfg : AnalyzerConfig) : ℚ :=
  if cfg.input_tempo > 0 then cfg.input_tempo else kDefaultInputTempo

/-- The effective alpha used at finalize (analyzer.cpp lines 439-440). -/
def effAlpha (cfg : AnalyzerConfig) : ℚ :=
  if cfg.alpha > 0 then cfg.alpha else kDefaultAlpha

/-- The effective tightness used at finalize (analyzer.cpp lines 441-442). -/
def effTightness (cfg : AnalyzerConfig) : ℚ :=
  if cfg.tightness > 0 then cfg.tightness else kDefaultTightness

/-- The effective beats-per-bar used at finalize (analyzer.cpp lines 479-480). -/
def effBeatsPerBar (cfg : AnalyzerConfig) : ℤ :=
  if cfg.beats_per_bar > 0 then cfg.beats_per_bar else kDefaultBeatsPerBar

/-- The guarded ClusterMeltSegmenterParams (analyzer.cpp lines 528-534). -/
def makeSegParams (segCfg : AnalyzerSegmenterConfig) : SegParams where
  featureType := if segCfg.feature_type > 0 then segCfg.feature_type else kDefaultSegFeatureType
  hopSize := if segCfg.hop_size > 0 then segCfg.hop_size else kDefaultSegHopSize
  windowSize := if segCfg.window_size > 0 then segCfg.window_size else kDefaultSegWindowSize
  nHMMStates := if segCfg.num_hmm_states > 0 then segCfg.num_hmm_states else kDefaultSegNumHMMStates
  nclusters := if segCfg.num_clusters > 0 then segCfg.num_clusters else kDefaultSegNumClusters

/-- Conversion of a tracker beat position (DF units, relative to the
trimmed array that starts at frame 2) to seconds (analyzer.cpp lines
460-466). -/
def beatToSeconds (stepSizeFrames sampleRate : ℤ) (b : ℚ) : ℚ :=
  ((b + 2) * (stepSizeFrames : ℚ) + (stepSizeFrames : ℚ) / 2) / (sampleRate : ℚ)

/-- analyzer_finalize (analyzer.cpp lines 370-618), with the external
primitives passed in as prims. Allocation failures are not modelled
(every malloc succeeds). The cue_points field holds the concatenated
phrase-then-section cue list before the final std::sort; the sorted
result is related to this one by analyzer_finalize_rel. -/
def analyzer_finalize (prims : Prims) (a : QMAnalyzer)
    (seg_config : Option AnalyzerSegmenterConfig) : AnalyzerResultEx :=
  let base : AnalyzerResultEx :=
    { step_size_frames := a.stepSizeFrames
      window_size := a.windowSize
      sample_rate := a.sampleRate
      total_frames := a.totalFramesProcessed
      duration := (a.totalFramesProcessed : ℚ) / (a.sampleRate : ℚ) }
  if a.detectionResults.length < 4 then
    { base with error := some kErrNotEnoughData }
  else
    let base := { base with detection_function := a.detectionResults }
    let kept := stripTrailingNonPos a.detectionResults
    if kept.length ≤ 2 then
      { base with error := some kErrNoValidResults }
    else
      let df := kept.drop 2
      let beatPeriod := prims.calculateBeatPeriod df (df.length / 128 + 1)
        (effInputTempo a.config) (a.config.constrain_tempo ≠ 0)
      let base := { base with beat_periods := beatPeriod }
      let beats := prims.calculateBeats df beatPeriod (effAlpha a.config) (effTightness a.config)
      if beats = [] then
        { base with error := some kErrNoBeats }
      else
        let beatsSec := beats.map (beatToSeconds a.stepSizeFrames a.sampleRate)
        let bpm :=
          if 2 ≤ beats.length then
            60 / (totalInterval beatsSec / ((beatsSec.length : ℚ) - 1))
          else base.bpm
        let base := { base with beats := beatsSec, bpm := bpm }
        let base :=
          if 4 ≤ beats.length ∧ a.audioBuffer ≠ [] then
            let blockSize := a.stepSizeFrames.toNat
            let pushed := a.audioBuffer.take (a.audioBuffer.length / blockSize * blockSize)
            let decimated := prims.getBufferedAudio a.sampleRate a.stepSizeFrames pushed
            if decimated ≠ [] then
              { base with
                downbeats := prims.findDownBeats decimated beats (effBeatsPerBar a.config)
                beat_spectral_diff := prims.getBeatSD decimated beats (effBeatsPerBar a.config) }
            else base
          else base
        let base :=
          match seg_config with
          | some segCfg0 =>
            if a.audioBuffer ≠ [] then
              let segCfg := getEffectiveSegConfig (some segCfg0)
              let params := makeSegParams segCfg
              let w := prims.getWindowsize params a.sampleRate
              let h := prims.getHopsize params a.sampleRate
              let segmentation := prims.segment params a.sampleRate
                (segWindows a.audioBuffer w h) segCfg.num_clusters
              { base with
                segments := segmentation.segments.map (fun (s : RawSegment) =>
                  ({ start := (s.start : ℚ) / (a.sampleRate : ℚ)
                     end_ := (s.end_ : ℚ) / (a.sampleRate : ℚ)
                     type := s.type } : AnalyzerSegment))
                num_segment_types := segmentation.nsegtypes }
            else base
          | none => base
        { base with cue_points := phraseCues base.downbeats base.beats ++ sectionCues base.segments }

/-- Sortedness of a cue list under the std::sort comparator
(analyzer.cpp line 607): non-decreasing in time. -/
def sortedByTime (l : List CuePoint) : Prop :=
  l.Pairwise (fun x y => x.time ≤ y.time)

instance (l : List CuePoint) : Decidable (sortedByTime l) := by
  unfold sortedByTime
  infer_instance

/-- Semantics of the std::sort call (analyzer.cpp lines 606-607): the
C++ standard guarantees only that the output is a permutation of the
input that is sorted under the comparator; std::sort is NOT stable, so
the relative order of equal-time cues is unspecified. -/
def isStdSortOutput (input out : List CuePoint) : Prop :=
  out.Perm input ∧ sortedByTime out

/-- Full input/output relation of analyzer_finalize: the deterministic
part computed by analyzer_finalize, with the cue list replaced by any
valid std::sort output of it. -/
def analyzer_finalize_rel (prims : Prims) (a : QMAnalyzer)
    (seg_config : Option AnalyzerSegmenterConfig) (r : AnalyzerResultEx) : Prop :=
  ∃ sorted, isStdSortOutput (analyzer_finalize prims a seg_config).cue_points sorted ∧
    r = { analyzer_finalize prims a seg_config with cue_points := sorted }

/-- Basic analysis result (analyzer.h, struct AnalyzerResult), as
produced by the legacy whole-file analyzer
(src/analyzer/lib/analyzer.cpp). calloc zero-initialization is the
field defaults. -/
structure AnalyzerResult where
  bpm : ℚ := 0
  beats : List ℚ := []
  sample_rate : ℤ := 0
  total_frames : ℤ := 0
  duration : ℚ := 0
  error : Option String := none
deriving Repr, DecidableEq

/-- The tempo-tracker calls made by the legacy analyzer
(src/analyzer/lib/analyzer.cpp lines 180 and 183), which use the
primitive's built-in default tempo hint, constrain flag, alpha and
tightness rather than passing them explicitly. -/
structure LegacyPrims where
  calculateBeatPeriod : List ℚ → ℕ → List ℤ
  calculateBeats : List ℚ → List ℤ → List ℚ

/-- The DF post-processing tail of the legacy analyzer_analyze_file
(src/analyzer/lib/analyzer.cpp lines 154-219): trimming, tempo
tracking, beat conversion and BPM, given the accumulated detection
results. The trailing-trim loop (lines 160-163), interval loop (lines
211-215) and beat conversion (lines 204-205) are textually identical to
the streaming file's, so the same helper definitions embed them.
File-related fields (sample_rate, total_frames, duration) are set
before this tail and are not modelled. -/
def legacy_analyze_tail (prims : LegacyPrims) (sampleRate stepSizeFrames : ℤ)
    (detectionResults : List ℚ) : AnalyzerResult :=
  if detectionResults.length < 4 then
    { error := some kErrNotEnoughData }
  else
    let kept := stripTrailingNonPos detectionResults
    if kept.length ≤ 2 then
      { error := some kErrNoValidResults }
    else
      let df := kept.drop 2
      let beatPeriod := prims.calculateBeatPeriod df (df.length / 128 + 1)
      let beats := prims.calculateBeats df beatPeriod
      if beats = [] then
        { error := some kErrNoBeats }
      else
        let beatsSec := beats.map (beatToSeconds stepSizeFrames sampleRate)
        let bpm :=
          if 2 ≤ beats.length then
            60 / (totalInterval beatsSec / ((beatsSec.length : ℚ) - 1))
          else 0
        { bpm := bpm, beats := beatsSec }

/-- Claim C1's tie-break property: in the output, an equal-time pair is
never ordered section-cue first, phrase-cue second. -/
def tieBreakHolds (out : List CuePoint) : Prop :=
  out.Pairwise (fun x y =>
    x.time = y.time → ¬(x.type = CUE_TYPE_SECTION ∧ y.type = CUE_TYPE_PHRASE))

instance (l : List CuePoint) : Decidable (tieBreakHolds l) := by
  unfold tieBreakHolds
  infer_instance

/-- Invariant of the overlap accumulator after consuming the stream
prefix p: every emitted window is the W-sample slice of p starting at
its emission index times the step, those slices lie inside p, and the
buffer holds exactly the unconsumed tail of p, shorter than a window. -/
def FrameAccInv (W step : ℕ) (p : List ℚ) (st : FrameAcc) : Prop :=
  st.windows = (List.range st.windows.length).map (fun k => (p.drop (k * step)).take W) ∧
  (∀ k, k < st.windows.length → k * step + W ≤ p.length) ∧
  st.buf = p.drop (st.windows.length * step) ∧
  st.windows.length * step ≤ p.length ∧
  p.length < st.windows.length * step + W

/-- Benign instantiation of the external primitives, used to exercise
the orchestrator on concrete inputs: the tempo tracker echoes its DF
input as beat positions, the decimator echoes the pushed audio, the
downbeat detector and segmenter return empty results. -/
def trivPrims : Prims where
  calculateBeatPeriod := fun _ n _ _ => List.replicate n 0
  calculateBeats := fun df _ _ _ => df
  getBufferedAudio := fun _ _ pushed => pushed
  findDownBeats := fun _ _ _ => []
  getBeatSD := fun _ _ _ => []
  getWindowsize := fun _ _ => 1
  getHopsize := fun _ _ => 1
  segment := fun _ _ _ m => { nsegtypes := m, segments := [] }

/-- Legacy primitives matching trivPrims at the default parameters. -/
def trivLegacyPrims : LegacyPrims where
  calculateBeatPeriod := fun _ n => List.replicate n 0
  calculateBeats := fun df _ => df

/-- A concrete session state that has accumulated four positive DF
values and no raw audio: sample rate 10, step 10 (as if constructed for
a sample rate making these exact). -/
def stA : QMAnalyzer where
  sampleRate := 10
  channels := 1
  config := analyzer_default_config
  stepSizeFrames := 10
  windowSize := 16
  detectionResults := [1, 1, 1, 1]
  overlapBuf := []
  totalFramesProcessed := 40
  audioBuffer := []

/-- stA with a non-empty raw-audio history. -/
def stB : QMAnalyzer :=
  { stA with audioBuffer := [1], totalFramesProcessed := 41 }

/-- An empty freshly-created session at sample rate 10. -/
def stEmpty : QMAnalyzer :=
  { stA with detectionResults := [], totalFramesProcessed := 0 }

/-- Primitives for the C1 counterexample: four beats at DF indices
0..3, a downbeat at beat 0, and one segment starting at sample 25 so
that the section cue lands exactly on the phrase cue's time of 2.5 s. -/
def c1Prims : Prims :=
  { trivPrims with
    calculateBeats := fun _ _ _ _ => [0, 1, 2, 3]
    getBufferedAudio := fun _ _ _ => [1]
    findDownBeats := fun _ _ _ => [0]
    segment := fun _ _ _ _ => { nsegtypes := 1, segments := [{ start := 25, end_ := 30, type := 5 }] } }

/-- The phrase cue the C1 state emits: beat 0 is at
((0+2)*10 + 5)/10 = 2.5 seconds. -/
def c1PhraseCue : CuePoint where
  time := 5 / 2
  type := CUE_TYPE_PHRASE
  type_index := 0
  confidence := 8 / 10

/-- The section cue the C1 state emits, also at 25/10 = 2.5 seconds. -/
def c1SectionCue : CuePoint where
  time := 5 / 2
  type := CUE_TYPE_SECTION
  type_index := 5
  confidence := 7 / 10

/-- A finalized result for the C1 state whose cue list is a valid
std::sort output ordering the section cue before the equal-time phrase
cue. -/
def c1Result : AnalyzerResultEx :=
  { analyzer_finalize c1Prims stB (some segmenter_default_config) with
    cue_points := [c1SectionCue, c1PhraseCue] }

/-- Primitives for the C8 evidence: the segmenter records the cluster
count it was constructed with (params.nclusters) as the type of a
single segment, and the argument of the segment(m) call as nsegtypes. -/
def c8Prims : Prims :=
  { trivPrims with
    calculateBeats := fun _ _ _ _ => [0, 1, 2, 3]
    segment := fun params _ _ m =>
      { nsegtypes := m, segments := [{ start := 0, end_ := 0, type := params.nclusters }] } }

/-- A segmenter configuration whose cluster count is the degenerate 0;
every other field is positive. -/
def c8SegCfg : AnalyzerSegmenterConfig where
  feature_type := 1
  hop_size := 2 / 10
  window_size := 6 / 10
  num_clusters := 0
  num_hmm_states := 40

/-- The provenance fields every finalize result starts from
(analyzer.cpp lines 375-384). -/
def baseRes (st : QMAnalyzer) : AnalyzerResultEx where
  step_size_frames := st.stepSizeFrames
  window_size := st.windowSize
  sample_rate := st.sampleRate
  total_frames := st.totalFramesProcessed
  duration := (st.totalFramesProcessed : ℚ) / (st.sampleRate : ℚ)

/-- The trimmed DF sequence handed to the tempo tracker: trailing
non-positive values stripped, then the first 2 dropped. -/
def trimmedDf (st : QMAnalyzer) : List ℚ :=
  (stripTrailingNonPos st.detectionResults).drop 2

/-- The beat-period curve the tempo tracker returns at finalize. -/
def beatPeriodOf (prims : Prims) (st : QMAnalyzer) : List ℤ :=
  prims.calculateBeatPeriod (trimmedDf st) ((trimmedDf st).length / 128 + 1)
    (effInputTempo st.config) (decide (st.config.constrain_tempo ≠ 0))

/-- The beat positions (DF units) the tempo tracker returns at finalize. -/
def rawBeatsOf (prims : Prims) (st : QMAnalyzer) : List ℚ :=
  prims.calculateBeats (trimmedDf st) (beatPeriodOf prims st)
    (effAlpha st.config) (effTightness st.config)

/-- The beat times in seconds stored in the result. -/
def beatsSecOf (prims : Prims) (st : QMAnalyzer) : List ℚ :=
  (rawBeatsOf prims st).map (beatToSeconds st.stepSizeFrames st.sampleRate)

/-- The BPM stored in the result (0 when fewer than 2 beats). -/
def bpmOf (prims : Prims) (st : QMAnalyzer) : ℚ :=
  if 2 ≤ (rawBeatsOf prims st).length then
    60 / (totalInterval (beatsSecOf prims st) / (((beatsSecOf prims st).length : ℚ) - 1))
  else 0

/-- The audio prefix pushed block-wise into the DownBeat decimator. -/
def pushedAudio (st : QMAnalyzer) : List ℚ :=
  st.audioBuffer.take (st.audioBuffer.length / st.stepSizeFrames.toNat * st.stepSizeFrames.toNat)

/-- The decimated audio the DownBeat object hands back. -/
def decimatedOf (prims : Prims) (st : QMAnalyzer) : List ℚ :=
  prims.getBufferedAudio st.sampleRate st.stepSizeFrames (pushedAudio st)

/-- The downbeat indices stored in the result; empty when the stage's
preconditions are unmet. -/
def downbeatsOf (prims : Prims) (st : QMAnalyzer) : List ℤ :=
  if 4 ≤ (rawBeatsOf prims st).length ∧ st.audioBuffer ≠ [] then
    if decimatedOf prims st ≠ [] then
      prims.findDownBeats (decimatedOf prims st) (rawBeatsOf prims st) (effBeatsPerBar st.config)
    else []
  else []

/-- The beat spectral differences stored in the result. -/
def beatSDOf (prims : Prims) (st : QMAnalyzer) : List ℚ :=
  if 4 ≤ (rawBeatsOf prims st).length ∧ st.audioBuffer ≠ [] then
    if decimatedOf prims st ≠ [] then
      prims.getBeatSD (decimatedOf prims st) (rawBeatsOf prims st) (effBeatsPerBar st.config)
    else []
  else []

/-- The segmentation the external segmenter returns, when the stage runs. -/
def segmentationOf (prims : Prims) (st : QMAnalyzer)
    (segc : Option AnalyzerSegmenterConfig) : Segmentation :=
  match segc with
  | some segCfg0 =>
    if st.audioBuffer ≠ [] then
      let segCfg := getEffectiveSegConfig (some segCfg0)
      let params := makeSegParams segCfg
      prims.segment params st.sampleRate
        (segWindows st.audioBuffer (prims.getWindowsize params st.sampleRate)
          (prims.getHopsize params st.sampleRate))
        segCfg.num_clusters
    else { nsegtypes := 0, segments := [] }
  | none => { nsegtypes := 0, segments := [] }

/-- The converted segments stored in the result. -/
def segmentsOf (prims : Prims) (st : QMAnalyzer)
    (segc : Option AnalyzerSegmenterConfig) : List AnalyzerSegment :=
  match segc with
  | some segCfg0 =>
    if st.audioBuffer ≠ [] then
      (segmentationOf prims st (some segCfg0)).segments.map (fun (s : RawSegment) =>
        ({ start := (s.start : ℚ) / (st.sampleRate : ℚ)
           end_ := (s.end_ : ℚ) / (st.sampleRate : ℚ)
           type := s.type } : AnalyzerSegment))
    else []
  | none => []

/-- The segment-type count stored in the result. -/
def numSegTypesOf (prims : Prims) (st : QMAnalyzer)
    (segc : Option AnalyzerSegmenterConfig) : ℤ :=
  match segc with
  | some segCfg0 =>
    if st.audioBuffer ≠ [] then (segmentationOf prims st (some segCfg0)).nsegtypes
    else 0
  | none => 0

/-- Primitives whose tempo tracker returns two distinct beat positions,
for exercising the BPM computation. -/
def c4Prims : Prims :=
  { trivPrims with calculateBeats := fun _ _ _ _ => [0, 1] }

/-- Primitives that differ from trivPrims exactly in the downbeat-stage
functions, to witness that a skipped downbeat stage never consults them. -/
def c7AltPrims : Prims :=
  { trivPrims with
    getBufferedAudio := fun _ _ _ => [3]
    findDownBeats := fun _ _ _ => [7]
    getBeatSD := fun _ _ _ => [9] }

/-- C1 theorems below share this fact: the C1 state admits the
section-before-phrase ordering as a valid unstable-sort output. -/
theorem c1RelHolds :
    analyzer_finalize_rel c1Prims stB (some segmenter_default_config) c1Result := by
  refine ⟨[c1SectionCue, c1PhraseCue], ⟨?_, ?_⟩, rfl⟩
  · have hcue : (analyzer_finalize c1Prims stB (some segmenter_default_config)).cue_points =
        [c1PhraseCue, c1SectionCue] := by
      norm_num [analyzer_finalize, c1Prims, trivPrims, stB, stA, stripTrailingNonPos,
        List.dropWhile, List.cons_ne_nil, getEffectiveSegConfig, makeSegParams,
        segmenter_default_config, phraseCues, sectionCues, List.range_succ,
        beatToSeconds, c1PhraseCue, c1SectionCue, CUE_TYPE_PHRASE, CUE_TYPE_SECTION,
        kDefaultSegFeatureType, kDefaultSegHopSize, kDefaultSegWindowSize,
        kDefaultSegNumClusters, kDefaultSegNumHMMStates, FEATURE_TYPE_CONSTQ,
        List.filterMap_cons, List.filterMap_nil]
    rw [hcue]
    exact List.Perm.swap c1PhraseCue c1SectionCue []
  · refine List.pairwise_cons.mpr ⟨?_, List.pairwise_singleton _ _⟩
    intro y hy
    rw [List.mem_singleton.mp hy]
    norm_num [c1SectionCue, c1PhraseCue]

/-- C6: analyzer_create returns a null handle exactly when the sample
rate is non-positive, the channel count is non-positive, or the channel
count exceeds 2; for all other arguments it returns a session handle
(allocation failure is not modelled). -/
theorem c6_create_validation (sr ch : ℤ) (cfg : Option AnalyzerConfig) :
    analyzer_create sr ch cfg = none ↔ (sr ≤ 0 ∨ ch ≤ 0 ∨ 2 < ch) := by
  unfold analyzer_create
  split <;> simp_all

/-- C5: a session finalized with fewer than 4 accumulated raw DF values
carries the not-enough-audio-data error message (which contains the
"Not enough audio data" text), and its beat, downbeat, segment and
cue-point arrays are all empty — including every possible output of the
final cue sort; finalize still returns a populated result, so no crash
occurs. -/
theorem c5_insufficient_data (prims : Prims) (st : QMAnalyzer)
    (segc : Option AnalyzerSegmenterConfig)
    (h : st.detectionResults.length < 4) :
    (analyzer_finalize prims st segc).error = some kErrNotEnoughData ∧
    kErrNotEnoughData = "Not enough audio data" ++ " for beat detection" ∧
    (analyzer_finalize prims st segc).beats = [] ∧
    (analyzer_finalize prims st segc).downbeats = [] ∧
    (analyzer_finalize prims st segc).segments = [] ∧
    (analyzer_finalize prims st segc).cue_points = [] ∧
    (∀ out, isStdSortOutput (analyzer_finalize prims st segc).cue_points out → out = []) := by
  unfold analyzer_finalize
  rw [if_pos h]
  refine ⟨rfl, rfl, rfl, rfl, rfl, rfl, ?_⟩
  intro out hout
  exact hout.1.eq_nil

/-- C5 witness: an empty session finalized at once hits the insufficient
data error with an empty cue list. -/
theorem c5_insufficient_data_witness :
    stEmpty.detectionResults.length < 4 ∧
    (analyzer_finalize trivPrims stEmpty none).error = some kErrNotEnoughData ∧
    (analyzer_finalize trivPrims stEmpty none).beats = [] ∧
    (analyzer_finalize trivPrims stEmpty none).cue_points = [] := by
  have h : stEmpty.detectionResults.length < 4 := by decide
  have hc := c5_insufficient_data trivPrims stEmpty none h
  exact ⟨h, hc.1, hc.2.2.1, hc.2.2.2.2.2.1⟩

/-- C2 counterexample: sample rate 75 (with 1 channel and the default
configuration) is accepted by analyzer_create, but the derived step size
is the truncation of 75 * 0.01161 = 0.87075, namely 0: it differs from
the rounding (1) and is not at least 1, refuting the claimed
stepSamples = round(sampleRate * stepSeconds) ≥ 1. -/
theorem c2_step_round_cex :
    analyzer_create 75 1 none =
      some (QMAnalyzer.init 75 1 analyzer_default_config) ∧
    (QMAnalyzer.init 75 1 analyzer_default_config).stepSizeFrames = 0 ∧
    round ((75 : ℚ) * effStepSecs analyzer_default_config) = 1 ∧
    ¬((QMAnalyzer.init 75 1 analyzer_default_config).stepSizeFrames =
        round ((75 : ℚ) * effStepSecs analyzer_default_config) ∧
      1 ≤ (QMAnalyzer.init 75 1 analyzer_default_config).stepSizeFrames) := by
  have h1 : analyzer_create 75 1 none =
      some (QMAnalyzer.init 75 1 analyzer_default_config) := by
    unfold analyzer_create
    rw [if_neg (by norm_num)]
    rfl
  have h2 : (QMAnalyzer.init 75 1 analyzer_default_config).stepSizeFrames = 0 := by
    show truncToInt ((75 : ℚ) * effStepSecs analyzer_default_config) = 0
    rw [truncToInt, if_pos (by norm_num [effStepSecs, analyzer_default_config, kDefaultStepSecs])]
    rw [Int.floor_eq_iff]
    norm_num [effStepSecs, analyzer_default_config, kDefaultStepSecs]
  have h3 : round ((75 : ℚ) * effStepSecs analyzer_default_config) = 1 := by
    rw [round_eq, Int.floor_eq_iff]
    norm_num [effStepSecs, analyzer_default_config, kDefaultStepSecs]
  refine ⟨h1, h2, h3, ?_⟩
  rintro ⟨ha, hb⟩
  rw [h2] at hb
  exact absurd hb (by norm_num)

/-- C2 amended: for every session constructed with a positive sample
rate, the derived window size is a power of two and at least 1, and the
derived step size is the truncation (floor) of sampleRate * stepSeconds
— not its rounding — hence at least 1 exactly when that product is at
least 1 (and 0 when the product is below 1, as at sample rate 75). -/
theorem c2_window_step_amended (sr ch : ℤ) (cfg : AnalyzerConfig) (hsr : 0 < sr) :
    (∃ k : ℕ, (QMAnalyzer.init sr ch cfg).windowSize = 2 ^ k) ∧
    1 ≤ (QMAnalyzer.init sr ch cfg).windowSize ∧
    (QMAnalyzer.init sr ch cfg).stepSizeFrames = ⌊(sr : ℚ) * effStepSecs cfg⌋ ∧
    (1 ≤ (sr : ℚ) * effStepSecs cfg → 1 ≤ (QMAnalyzer.init sr ch cfg).stepSizeFrames) := by
  have hstep : 0 < effStepSecs cfg := by
    rw [effStepSecs]
    split
    · assumption
    · norm_num [kDefaultStepSecs]
  have hprod : 0 ≤ (sr : ℚ) * effStepSecs cfg :=
    mul_nonneg (by exact_mod_cast hsr.le) hstep.le
  have hfloor : (QMAnalyzer.init sr ch cfg).stepSizeFrames = ⌊(sr : ℚ) * effStepSecs cfg⌋ := by
    show truncToInt ((sr : ℚ) * effStepSecs cfg) = _
    rw [truncToInt, if_pos hprod]
  refine ⟨⟨Nat.clog 2 (Int.tdiv sr (effMaxBinHz cfg)).toNat, rfl⟩, ?_, hfloor, ?_⟩
  · show (1 : ℤ) ≤ 2 ^ Nat.clog 2 (Int.tdiv sr (effMaxBinHz cfg)).toNat
    have hp : (0 : ℤ) < 2 ^ Nat.clog 2 (Int.tdiv sr (effMaxBinHz cfg)).toNat :=
      pow_pos (by norm_num) _
    omega
  · intro hone
    rw [hfloor]
    exact Int.le_floor.mpr (by exact_mod_cast hone)

/-- C2 witness: at 44100 Hz with the default configuration the product
is 512.001 ≥ 1, so the amended theorem yields a power-of-two window and
a step size of at least 1. -/
theorem c2_window_step_witness :
    (0 : ℤ) < 44100 ∧
    1 ≤ (44100 : ℚ) * effStepSecs analyzer_default_config ∧
    (∃ k : ℕ, (QMAnalyzer.init 44100 2 analyzer_default_config).windowSize = 2 ^ k) ∧
    1 ≤ (QMAnalyzer.init 44100 2 analyzer_default_config).windowSize ∧
    1 ≤ (QMAnalyzer.init 44100 2 analyzer_default_config).stepSizeFrames := by
  have hsr : (0 : ℤ) < 44100 := by norm_num
  have hone : 1 ≤ (44100 : ℚ) * effStepSecs analyzer_default_config := by
    norm_num [effStepSecs, analyzer_default_config, kDefaultStepSecs]
  have h := c2_window_step_amended 44100 2 analyzer_default_config hsr
  exact ⟨hsr, hone, h.1, h.2.1, h.2.2.2 hone⟩

/-- C8 evidence of the code slip: finalizing with a segmenter
configuration whose num_clusters is 0 (all other fields positive) hands
the raw 0 to the external segment(m) call — recorded here as nsegtypes —
even though the guarded constructor parameter params.nclusters was
defaulted to 10 (recorded as the segment type): analyzer.cpp line 553
reads seg-config num_clusters without the fallback that line 534 computed. -/
theorem c8_raw_nclusters_reaches_segmenter :
    (makeSegParams c8SegCfg).nclusters = 10 ∧
    (analyzer_finalize c8Prims stB (some c8SegCfg)).num_segment_types = 0 ∧
    ((analyzer_finalize c8Prims stB (some c8SegCfg)).segments.map AnalyzerSegment.type) = [10] := by
  refine ⟨by norm_num [makeSegParams, c8SegCfg, kDefaultSegNumClusters], ?_, ?_⟩ <;>
    norm_num [analyzer_finalize, c8Prims, trivPrims, stB, stA, c8SegCfg, stripTrailingNonPos,
      List.dropWhile, List.cons_ne_nil, makeSegParams, getEffectiveSegConfig,
      kDefaultSegNumClusters]

/-- Shape of a finalize result when fewer than 4 DF values exist. -/
theorem finalize_lt4 (prims : Prims) (st : QMAnalyzer)
    (segc : Option AnalyzerSegmenterConfig)
    (h : st.detectionResults.length < 4) :
    analyzer_finalize prims st segc = { baseRes st with error := some kErrNotEnoughData } := by
  simp only [analyzer_finalize]
  rw [if_pos h]
  simp only [baseRes]

/-- Shape of a finalize result when at most 2 DF values survive the
trailing strip. -/
theorem finalize_noValid (prims : Prims) (st : QMAnalyzer)
    (segc : Option AnalyzerSegmenterConfig)
    (h4 : ¬ st.detectionResults.length < 4)
    (hk : (stripTrailingNonPos st.detectionResults).length ≤ 2) :
    analyzer_finalize prims st segc =
      { baseRes st with
        detection_function := st.detectionResults
        error := some kErrNoValidResults } := by
  simp only [analyzer_finalize]
  rw [if_neg h4, if_pos hk]
  simp only [baseRes]

/-- Shape of a finalize result when the tempo tracker returns no beats. -/
theorem finalize_noBeats (prims : Prims) (st : QMAnalyzer)
    (segc : Option AnalyzerSegmenterConfig)
    (h4 : ¬ st.detectionResults.length < 4)
    (hk : ¬ (stripTrailingNonPos st.detectionResults).length ≤ 2)
    (hb : rawBeatsOf prims st = []) :
    analyzer_finalize prims st segc =
      { baseRes st with
        detection_function := st.detectionResults
        beat_periods := beatPeriodOf prims st
        error := some kErrNoBeats } := by
  simp only [rawBeatsOf, beatPeriodOf, trimmedDf] at hb
  simp only [analyzer_finalize]
  rw [if_neg h4, if_neg hk, if_pos hb]
  simp only [baseRes, beatPeriodOf, trimmedDf]

/-- Shape of a finalize result on the success path: every stored field
in terms of the named stage outputs. -/
theorem finalize_success (prims : Prims) (st : QMAnalyzer)
    (segc : Option AnalyzerSegmenterConfig)
    (h4 : ¬ st.detectionResults.length < 4)
    (hk : ¬ (stripTrailingNonPos st.detectionResults).length ≤ 2)
    (hb : rawBeatsOf prims st ≠ []) :
    analyzer_finalize prims st segc =
      { baseRes st with
        detection_function := st.detectionResults
        beat_periods := beatPeriodOf prims st
        beats := beatsSecOf prims st
        bpm := bpmOf prims st
        downbeats := downbeatsOf prims st
        beat_spectral_diff := beatSDOf prims st
        segments := segmentsOf prims st segc
        num_segment_types := numSegTypesOf prims st segc
        cue_points := phraseCues (downbeatsOf prims st) (beatsSecOf prims st) ++
          sectionCues (segmentsOf prims st segc) } := by
  have hb' : ¬ prims.calculateBeats ((stripTrailingNonPos st.detectionResults).drop 2)
      (prims.calculateBeatPeriod ((stripTrailingNonPos st.detectionResults).drop 2)
        (((stripTrailingNonPos st.detectionResults).drop 2).length / 128 + 1)
        (effInputTempo st.config) (decide (st.config.constrain_tempo ≠ 0)))
      (effAlpha st.config) (effTightness st.config) = [] := by
    simpa only [rawBeatsOf, beatPeriodOf, trimmedDf] using hb
  simp only [analyzer_finalize]
  rw [if_neg h4, if_neg hk, if_neg hb']
  simp only [baseRes, bpmOf, beatsSecOf, rawBeatsOf, beatPeriodOf, trimmedDf, downbeatsOf,
    beatSDOf, decimatedOf, pushedAudio, segmentsOf, numSegTypesOf, segmentationOf]
  repeat (first | rfl | split)

/-- The interval sum of the BPM loop telescopes to last minus first. -/
theorem totalInterval_telescope (a : ℚ) (l : List ℚ) :
    totalInterval (a :: l) = l.getLastD a - a := by
  induction l generalizing a with
  | nil => simp [totalInterval]
  | cons b t ih =>
    show (b - a) + totalInterval (b :: t) = (b :: t).getLastD a - a
    rw [ih b, List.getLastD_cons]
    ring

/-- C4: with at least 2 beats the reported BPM is 60 divided by the mean
of consecutive beat-time gaps in seconds, equivalently
60*(n-1)/(lastBeatTime - firstBeatTime); with fewer than 2 beats the BPM
field keeps its zeroed default. -/
theorem c4_bpm_mean_gaps (prims : Prims) (st : QMAnalyzer)
    (segc : Option AnalyzerSegmenterConfig) :
    (2 ≤ (analyzer_finalize prims st segc).beats.length →
      (analyzer_finalize prims st segc).bpm =
        60 / (totalInterval (analyzer_finalize prims st segc).beats /
          (((analyzer_finalize prims st segc).beats.length : ℚ) - 1)) ∧
      (analyzer_finalize prims st segc).bpm =
        60 * (((analyzer_finalize prims st segc).beats.length : ℚ) - 1) /
          ((analyzer_finalize prims st segc).beats.getLastD 0 -
            (analyzer_finalize prims st segc).beats.headI)) ∧
    ((analyzer_finalize prims st segc).beats.length < 2 →
      (analyzer_finalize prims st segc).bpm = 0) := by
  by_cases h4 : st.detectionResults.length < 4
  · rw [finalize_lt4 prims st segc h4]
    exact ⟨fun h => by simp [baseRes] at h, fun _ => rfl⟩
  by_cases hk : (stripTrailingNonPos st.detectionResults).length ≤ 2
  · rw [finalize_noValid prims st segc h4 hk]
    exact ⟨fun h => by simp [baseRes] at h, fun _ => rfl⟩
  by_cases hb : rawBeatsOf prims st = []
  · rw [finalize_noBeats prims st segc h4 hk hb]
    exact ⟨fun h => by simp [baseRes] at h, fun _ => rfl⟩
  rw [finalize_success prims st segc h4 hk hb]
  simp only
  constructor
  · intro h2
    have h2' : 2 ≤ (rawBeatsOf prims st).length := by
      simpa [beatsSecOf] using h2
    obtain ⟨a, t, hat⟩ := List.exists_cons_of_ne_nil
      (show beatsSecOf prims st ≠ [] by
        simp [beatsSecOf, hb])
    constructor
    · rw [bpmOf, if_pos h2']
    · rw [bpmOf, if_pos h2', hat, totalInterval_telescope, List.getLastD_cons, List.headI,
        div_div_eq_mul_div]
  · intro h2
    have h2' : ¬ 2 ≤ (rawBeatsOf prims st).length := by
      simp only [beatsSecOf, List.length_map] at h2
      omega
    rw [bpmOf, if_neg h2']

/-- C4 witness: a tracker returning beat indices 0 and 1 at step 10 and
sample rate 10 yields beats at 2.5 s and 3.5 s and a BPM of 60. -/
theorem c4_bpm_witness :
    2 ≤ (analyzer_finalize c4Prims stA none).beats.length ∧
    (analyzer_finalize c4Prims stA none).bpm = 60 := by
  have hbeats : (analyzer_finalize c4Prims stA none).beats = [5/2, 7/2] := by
    norm_num [analyzer_finalize, c4Prims, trivPrims, stA, stripTrailingNonPos,
      List.dropWhile, List.cons_ne_nil, beatToSeconds]
  have h2 : 2 ≤ (analyzer_finalize c4Prims stA none).beats.length := by
    rw [hbeats]; norm_num
  refine ⟨h2, ?_⟩
  have h := (c4_bpm_mean_gaps c4Prims stA none).1 h2
  rw [h.1, hbeats]
  norm_num [totalInterval]

/-- C3 counterexample: on a session whose four DF values are all
positive, only 2 values remain after dropping the first 2 and stripping
the trailing non-positives — fewer than 3 — yet finalize does not fail:
it runs the tempo tracker and returns beats with no error. -/
theorem c3_trimming_cex :
    4 ≤ stA.detectionResults.length ∧
    ((stripTrailingNonPos stA.detectionResults).drop 2).length < 3 ∧
    (analyzer_finalize trivPrims stA none).error = none ∧
    (analyzer_finalize trivPrims stA none).beats ≠ [] := by
  have hkept : stripTrailingNonPos stA.detectionResults = [1, 1, 1, 1] := by
    norm_num [stripTrailingNonPos, stA, List.dropWhile]
  refine ⟨by norm_num [stA], by rw [hkept]; norm_num, ?_, ?_⟩ <;>
    norm_num [analyzer_finalize, trivPrims, stA, stripTrailingNonPos, List.dropWhile,
      List.cons_ne_nil, beatToSeconds]

/-- C3 amended: for a DF sequence of at least 4 raw values, finalize
fails (with the "No valid detection results" error, empty beats and
periods) exactly when at most 2 values survive the trailing strip —
i.e. when the trimmed sequence is empty — not when fewer than 3 remain
after both trims; otherwise the tempo tracker runs on exactly the
trimmed sequence (trailing strip, then first 2 dropped), failing
further only when it returns no beats. -/
theorem c3_trimming_amended (prims : Prims) (st : QMAnalyzer)
    (segc : Option AnalyzerSegmenterConfig)
    (h4 : 4 ≤ st.detectionResults.length) :
    ((stripTrailingNonPos st.detectionResults).length ≤ 2 →
      (analyzer_finalize prims st segc).error = some kErrNoValidResults ∧
      (analyzer_finalize prims st segc).beats = [] ∧
      (analyzer_finalize prims st segc).beat_periods = []) ∧
    (2 < (stripTrailingNonPos st.detectionResults).length →
      (analyzer_finalize prims st segc).beat_periods = beatPeriodOf prims st ∧
      (rawBeatsOf prims st = [] →
        (analyzer_finalize prims st segc).error = some kErrNoBeats ∧
        (analyzer_finalize prims st segc).beats = []) ∧
      (rawBeatsOf prims st ≠ [] →
        (analyzer_finalize prims st segc).error = none ∧
        (analyzer_finalize prims st segc).beats =
          (rawBeatsOf prims st).map (beatToSeconds st.stepSizeFrames st.sampleRate))) := by
  have h4' : ¬ st.detectionResults.length < 4 := by omega
  constructor
  · intro hk
    rw [finalize_noValid prims st segc h4' hk]
    exact ⟨rfl, by simp [baseRes], by simp [baseRes]⟩
  · intro hk2
    have hk' : ¬ (stripTrailingNonPos st.detectionResults).length ≤ 2 := by omega
    refine ⟨?_, fun hb => ?_, fun hb => ?_⟩
    · by_cases hb : rawBeatsOf prims st = []
      · rw [finalize_noBeats prims st segc h4' hk' hb]
      · rw [finalize_success prims st segc h4' hk' hb]
    · rw [finalize_noBeats prims st segc h4' hk' hb]
      exact ⟨rfl, by simp [baseRes]⟩
    · rw [finalize_success prims st segc h4' hk' hb]
      exact ⟨by simp [baseRes], rfl⟩

/-- C3 witness: the all-positive four-value session has 4 surviving
values after the trailing strip, so the tracker runs on the 2-element
trimmed sequence and produces beats without error. -/
theorem c3_trimming_witness :
    4 ≤ stA.detectionResults.length ∧
    2 < (stripTrailingNonPos stA.detectionResults).length ∧
    rawBeatsOf trivPrims stA ≠ [] ∧
    (analyzer_finalize trivPrims stA none).error = none ∧
    (analyzer_finalize trivPrims stA none).beats =
      (rawBeatsOf trivPrims stA).map (beatToSeconds stA.stepSizeFrames stA.sampleRate) := by
  have hkept : stripTrailingNonPos stA.detectionResults = [1, 1, 1, 1] := by
    norm_num [stripTrailingNonPos, stA, List.dropWhile]
  have h4 : 4 ≤ stA.detectionResults.length := by norm_num [stA]
  have hk2 : 2 < (stripTrailingNonPos stA.detectionResults).length := by
    rw [hkept]; norm_num
  have hb : rawBeatsOf trivPrims stA ≠ [] := by
    rw [rawBeatsOf, trimmedDf, hkept]
    simp [trivPrims]
  have h := ((c3_trimming_amended trivPrims stA none h4).2 hk2).2.2 hb
  exact ⟨h4, hk2, hb, h.1, h.2⟩

/-- C7: when finalize reaches the downbeat stage with fewer than 4
detected beats or an empty raw-audio history, the stage is skipped: the
downbeat and beat-spectral-difference arrays stay empty, the error field
stays unset, and the whole result — BPM and beats included — is
unchanged under any replacement of the downbeat-stage primitives
(getBufferedAudio, findDownBeats, getBeatSD are never consulted). -/
theorem c7_downbeat_skip (p q : Prims) (st : QMAnalyzer)
    (segc : Option AnalyzerSegmenterConfig)
    (hbp : q.calculateBeatPeriod = p.calculateBeatPeriod)
    (hbe : q.calculateBeats = p.calculateBeats)
    (hwz : q.getWindowsize = p.getWindowsize)
    (hhz : q.getHopsize = p.getHopsize)
    (hsg : q.segment = p.segment)
    (herr : (analyzer_finalize p st segc).error = none)
    (hcond : (analyzer_finalize p st segc).beats.length < 4 ∨ st.audioBuffer = []) :
    (analyzer_finalize p st segc).downbeats = [] ∧
    (analyzer_finalize p st segc).beat_spectral_diff = [] ∧
    analyzer_finalize q st segc = analyzer_finalize p st segc := by
  by_cases h4 : st.detectionResults.length < 4
  · rw [finalize_lt4 p st segc h4] at herr
    simp at herr
  by_cases hk : (stripTrailingNonPos st.detectionResults).length ≤ 2
  · rw [finalize_noValid p st segc h4 hk] at herr
    simp at herr
  by_cases hb : rawBeatsOf p st = []
  · rw [finalize_noBeats p st segc h4 hk hb] at herr
    simp at herr
  have hsucc := finalize_success p st segc h4 hk hb
  have hcond' : ¬ (4 ≤ (rawBeatsOf p st).length ∧ st.audioBuffer ≠ []) := by
    rw [hsucc] at hcond
    simp only [beatsSecOf, List.length_map] at hcond
    rintro ⟨ha, hne⟩
    rcases hcond with h | h
    · omega
    · exact hne h
  have hdb : downbeatsOf p st = [] := by rw [downbeatsOf, if_neg hcond']
  have hsd : beatSDOf p st = [] := by rw [beatSDOf, if_neg hcond']
  have hqbp : beatPeriodOf q st = beatPeriodOf p st := by
    rw [beatPeriodOf, beatPeriodOf, hbp]
  have hqb : rawBeatsOf q st = rawBeatsOf p st := by
    rw [rawBeatsOf, rawBeatsOf, hbe, hqbp]
  have hqbsec : beatsSecOf q st = beatsSecOf p st := by
    rw [beatsSecOf, beatsSecOf, hqb]
  have hqbpm : bpmOf q st = bpmOf p st := by
    rw [bpmOf, bpmOf, hqb, hqbsec]
  have hbq : rawBeatsOf q st ≠ [] := by rw [hqb]; exact hb
  have hsuccq := finalize_success q st segc h4 hk hbq
  have hcondq : ¬ (4 ≤ (rawBeatsOf q st).length ∧ st.audioBuffer ≠ []) := by
    rw [hqb]; exact hcond'
  have hdbq : downbeatsOf q st = [] := by rw [downbeatsOf, if_neg hcondq]
  have hsdq : beatSDOf q st = [] := by rw [beatSDOf, if_neg hcondq]
  have hsegq : segmentsOf q st segc = segmentsOf p st segc := by
    cases segc <;> simp [segmentsOf, segmentationOf, hsg, hwz, hhz]
  have hnstq : numSegTypesOf q st segc = numSegTypesOf p st segc := by
    cases segc <;> simp [numSegTypesOf, segmentationOf, hsg, hwz, hhz]
  refine ⟨by rw [hsucc]; exact hdb, by rw [hsucc]; exact hsd, ?_⟩
  rw [hsucc, hsuccq, hqbp, hqbsec, hqbpm, hdbq, hdb, hsdq, hsd, hsegq, hnstq]

/-- C7 witness: with tempo output of 2 beats and no buffered audio, the
downbeat arrays are empty, no error is set, and replacing the
downbeat-stage primitives does not change the result. -/
theorem c7_downbeat_skip_witness :
    (analyzer_finalize trivPrims stA none).error = none ∧
    (analyzer_finalize trivPrims stA none).beats.length < 4 ∧
    (analyzer_finalize trivPrims stA none).downbeats = [] ∧
    (analyzer_finalize trivPrims stA none).beat_spectral_diff = [] ∧
    analyzer_finalize c7AltPrims stA none = analyzer_finalize trivPrims stA none := by
  have herr : (analyzer_finalize trivPrims stA none).error = none := by
    norm_num [analyzer_finalize, trivPrims, stA, stripTrailingNonPos, List.dropWhile,
      List.cons_ne_nil]
  have hlen : (analyzer_finalize trivPrims stA none).beats.length < 4 := by
    norm_num [analyzer_finalize, trivPrims, stA, stripTrailingNonPos, List.dropWhile,
      List.cons_ne_nil, beatToSeconds]
  have h := c7_downbeat_skip trivPrims c7AltPrims stA none rfl rfl rfl rfl rfl herr
    (Or.inl hlen)
  exact ⟨herr, hlen, h.1, h.2.1, h.2.2⟩

/-- The cue list a finalize result holds before sorting is always the
phrase cues followed by the section cues. -/
theorem finalize_cue_points_presort (prims : Prims) (st : QMAnalyzer)
    (segc : Option AnalyzerSegmenterConfig) :
    (analyzer_finalize prims st segc).cue_points =
      phraseCues (analyzer_finalize prims st segc).downbeats
          (analyzer_finalize prims st segc).beats ++
        sectionCues (analyzer_finalize prims st segc).segments := by
  by_cases h4 : st.detectionResults.length < 4
  · rw [finalize_lt4 prims st segc h4]
    simp [baseRes, phraseCues, sectionCues]
  by_cases hk : (stripTrailingNonPos st.detectionResults).length ≤ 2
  · rw [finalize_noValid prims st segc h4 hk]
    simp [baseRes, phraseCues, sectionCues]
  by_cases hb : rawBeatsOf prims st = []
  · rw [finalize_noBeats prims st segc h4 hk hb]
    simp [baseRes, phraseCues, sectionCues]
  rw [finalize_success prims st segc h4 hk hb]

/-- C1 counterexample: a finalized analysis whose phrase cue and section
cue fall at exactly 2.5 s admits, as a valid output of the unstable
std::sort call, the ordering with the section cue first — the claimed
phrase-before-section tie-break is not guaranteed by the code, which
uses std::sort (no stability) with a time-only comparator. -/
theorem c1_stable_tie_break_cex :
    analyzer_finalize_rel c1Prims stB (some segmenter_default_config) c1Result ∧
    c1Result.cue_points = [c1SectionCue, c1PhraseCue] ∧
    c1SectionCue.time = c1PhraseCue.time ∧
    c1SectionCue.type = CUE_TYPE_SECTION ∧
    c1PhraseCue.type = CUE_TYPE_PHRASE ∧
    ¬ tieBreakHolds c1Result.cue_points := by
  refine ⟨c1RelHolds, rfl, rfl, rfl, rfl, ?_⟩
  intro h
  have h2 := (List.pairwise_cons.mp h).1 c1PhraseCue (List.mem_singleton.mpr rfl)
  exact h2 rfl ⟨rfl, rfl⟩

/-- C1 amended: every finalized cue sequence is a permutation of the
phrase-then-section concatenation sorted non-decreasing by time, and its
timestamp sequence is uniquely determined; but the relative order of
distinct equal-time cues is unspecified (std::sort is not stable), so
the phrase-before-section tie-break is not guaranteed. -/
theorem c1_cue_order_amended (prims : Prims) (st : QMAnalyzer)
    (segc : Option AnalyzerSegmenterConfig) (r : AnalyzerResultEx)
    (h : analyzer_finalize_rel prims st segc r) :
    sortedByTime r.cue_points ∧
    r.cue_points.Perm
      (phraseCues (analyzer_finalize prims st segc).downbeats
          (analyzer_finalize prims st segc).beats ++
        sectionCues (analyzer_finalize prims st segc).segments) ∧
    (∀ r', analyzer_finalize_rel prims st segc r' →
      r'.cue_points.map CuePoint.time = r.cue_points.map CuePoint.time) := by
  obtain ⟨sorted, ⟨hperm, hsort⟩, rfl⟩ := h
  rw [← finalize_cue_points_presort prims st segc]
  refine ⟨hsort, hperm, ?_⟩
  rintro r' ⟨s', ⟨hperm', hsort'⟩, rfl⟩
  show s'.map CuePoint.time = sorted.map CuePoint.time
  have h1 : (s'.map CuePoint.time).Sorted (fun a b : ℚ => a ≤ b) :=
    List.pairwise_map.mpr hsort'
  have h2 : (sorted.map CuePoint.time).Sorted (fun a b : ℚ => a ≤ b) :=
    List.pairwise_map.mpr hsort
  exact List.eq_of_perm_of_sorted ((hperm'.trans hperm.symm).map CuePoint.time) h1 h2

/-- C1 witness: the concrete equal-time instance satisfies the amended
claim with the section-first ordering. -/
theorem c1_cue_order_witness :
    sortedByTime c1Result.cue_points ∧
    c1Result.cue_points.Perm
      (phraseCues (analyzer_finalize c1Prims stB (some segmenter_default_config)).downbeats
          (analyzer_finalize c1Prims stB (some segmenter_default_config)).beats ++
        sectionCues (analyzer_finalize c1Prims stB (some segmenter_default_config)).segments) := by
  have h := c1_cue_order_amended c1Prims stB (some segmenter_default_config) c1Result c1RelHolds
  exact ⟨h.1, h.2.1⟩

/-- C10: given tempo-tracker primitives whose default-parameter calls
(the legacy analyzer's two-argument calls) return the same outputs as
the streaming path's explicit-parameter calls at the default
configuration, the legacy whole-file tail and streaming finalize agree
on every shared field: the same trimming, the same error-string
selection, the same beat times, and the same BPM. -/
theorem c10_legacy_streaming_agree (p : Prims) (lp : LegacyPrims)
    (st : QMAnalyzer) (segc : Option AnalyzerSegmenterConfig)
    (hcfg : st.config = analyzer_default_config)
    (hbp : ∀ df n, lp.calculateBeatPeriod df n =
      p.calculateBeatPeriod df n kDefaultInputTempo false)
    (hbe : ∀ df bp, lp.calculateBeats df bp =
      p.calculateBeats df bp kDefaultAlpha kDefaultTightness) :
    (legacy_analyze_tail lp st.sampleRate st.stepSizeFrames st.detectionResults).error =
      (analyzer_finalize p st segc).error ∧
    (legacy_analyze_tail lp st.sampleRate st.stepSizeFrames st.detectionResults).beats =
      (analyzer_finalize p st segc).beats ∧
    (legacy_analyze_tail lp st.sampleRate st.stepSizeFrames st.detectionResults).bpm =
      (analyzer_finalize p st segc).bpm := by
  have heT : effInputTempo st.config = kDefaultInputTempo := by
    rw [hcfg]
    norm_num [effInputTempo, analyzer_default_config, kDefaultInputTempo]
  have hcT : decide (st.config.constrain_tempo ≠ 0) = false := by
    rw [hcfg]
    rfl
  have heA : effAlpha st.config = kDefaultAlpha := by
    rw [hcfg]
    norm_num [effAlpha, analyzer_default_config, kDefaultAlpha]
  have heG : effTightness st.config = kDefaultTightness := by
    rw [hcfg]
    norm_num [effTightness, analyzer_default_config, kDefaultTightness]
  have hlbp : lp.calculateBeatPeriod ((stripTrailingNonPos st.detectionResults).drop 2)
      (((stripTrailingNonPos st.detectionResults).drop 2).length / 128 + 1) =
      beatPeriodOf p st := by
    rw [beatPeriodOf, heT, hcT, hbp]
    rfl
  have hlbe : lp.calculateBeats ((stripTrailingNonPos st.detectionResults).drop 2)
      (lp.calculateBeatPeriod ((stripTrailingNonPos st.detectionResults).drop 2)
        (((stripTrailingNonPos st.detectionResults).drop 2).length / 128 + 1)) =
      rawBeatsOf p st := by
    rw [hbe, hlbp, rawBeatsOf, heA, heG]
    rfl
  by_cases h4 : st.detectionResults.length < 4
  · rw [finalize_lt4 p st segc h4]
    simp only [legacy_analyze_tail]
    rw [if_pos h4]
    exact ⟨rfl, by simp [baseRes], rfl⟩
  by_cases hk : (stripTrailingNonPos st.detectionResults).length ≤ 2
  · rw [finalize_noValid p st segc h4 hk]
    simp only [legacy_analyze_tail]
    rw [if_neg h4, if_pos hk]
    exact ⟨rfl, by simp [baseRes], rfl⟩
  simp only [legacy_analyze_tail]
  rw [if_neg h4, if_neg hk, hlbe]
  by_cases hb : rawBeatsOf p st = []
  · rw [finalize_noBeats p st segc h4 hk hb, if_pos hb]
    exact ⟨rfl, by simp [baseRes], rfl⟩
  · rw [finalize_success p st segc h4 hk hb, if_neg hb]
    refine ⟨by simp [baseRes], rfl, ?_⟩
    simp only [bpmOf, beatsSecOf]

/-- C10 witness: concrete matching primitives on the four-positive-DF
session give identical error, beats and BPM on both paths. -/
theorem c10_legacy_streaming_witness :
    stA.config = analyzer_default_config ∧
    (legacy_analyze_tail trivLegacyPrims stA.sampleRate stA.stepSizeFrames
        stA.detectionResults).error = (analyzer_finalize trivPrims stA none).error ∧
    (legacy_analyze_tail trivLegacyPrims stA.sampleRate stA.stepSizeFrames
        stA.detectionResults).beats = (analyzer_finalize trivPrims stA none).beats ∧
    (legacy_analyze_tail trivLegacyPrims stA.sampleRate stA.stepSizeFrames
        stA.detectionResults).bpm = (analyzer_finalize trivPrims stA none).bpm := by
  have h := c10_legacy_streaming_agree trivPrims trivLegacyPrims stA none rfl
    (fun df n => rfl) (fun df bp => rfl)
  exact ⟨rfl, h.1, h.2.1, h.2.2⟩

/-- The empty accumulator satisfies the overlap invariant. -/
theorem frameAccInv_init (W step : ℕ) (hW : 0 < W) :
    FrameAccInv W step [] ⟨[], []⟩ := by
  refine ⟨rfl, ?_, by simp, by simp, by simpa using hW⟩
  intro k hk
  simp at hk

/-- Pushing one sample preserves the overlap invariant (for a positive
step smaller than the window). -/
theorem frameAccInv_push (W step : ℕ) (hstep : 0 < step) (hsW : step < W)
    (p : List ℚ) (st : FrameAcc) (x : ℚ) (h : FrameAccInv W step p st) :
    FrameAccInv W step (p ++ [x]) (FrameAcc.push W step st x) := by
  obtain ⟨hw, hlen, hbuf, hle, hlt⟩ := h
  have hbuf1 : st.buf ++ [x] = (p ++ [x]).drop (st.windows.length * step) := by
    rw [List.drop_append_of_le_length hle, hbuf]
  have hlb : (st.buf ++ [x]).length = p.length + 1 - st.windows.length * step := by
    rw [hbuf1, List.length_drop, List.length_append]
    simp
  have hmapstable : (List.range st.windows.length).map
      (fun k => ((p ++ [x]).drop (k * step)).take W) =
      (List.range st.windows.length).map (fun k => (p.drop (k * step)).take W) := by
    apply List.map_congr_left
    intro k hk
    rw [List.mem_range] at hk
    have hkl := hlen k hk
    have h1 : k * step ≤ p.length := by omega
    rw [List.drop_append_of_le_length h1, List.take_append_of_le_length]
    rw [List.length_drop]
    omega
  have hsucc : (st.windows.length + 1) * step = st.windows.length * step + step := by ring
  simp only [FrameAcc.push]
  by_cases hfull : W ≤ (st.buf ++ [x]).length
  · rw [if_pos hfull]
    have hplen : p.length + 1 = st.windows.length * step + W := by omega
    have hwin : st.buf ++ [x] = ((p ++ [x]).drop (st.windows.length * step)).take W := by
      rw [← hbuf1, List.take_of_length_le]
      omega
    refine ⟨?_, ?_, ?_, ?_, ?_⟩ <;> dsimp only <;>
      (try simp only [List.length_append, List.length_singleton])
    · rw [List.range_succ, List.map_append, hmapstable, ← hw, List.map_singleton, hwin]
    · intro k hk
      rcases Nat.lt_succ_iff_lt_or_eq.mp hk with hk' | hk'
      · have := hlen k hk'
        omega
      · subst hk'
        omega
    · rw [if_pos hsW, hbuf1, List.drop_drop]
      congr 1
      ring
    · rw [hsucc]
      omega
    · rw [hsucc]
      omega
  · rw [if_neg hfull]
    refine ⟨?_, ?_, ?_, ?_, ?_⟩ <;> dsimp only <;>
      (try simp only [List.length_append, List.length_singleton])
    · rw [hmapstable]
      exact hw
    · intro k hk
      have := hlen k hk
      omega
    · exact hbuf1
    · omega
    · omega

/-- Consuming a whole chunk preserves the overlap invariant. -/
theorem frameAccInv_pushAll (W step : ℕ) (hstep : 0 < step) (hsW : step < W) :
    ∀ (xs p : List ℚ) (st : FrameAcc), FrameAccInv W step p st →
      FrameAccInv W step (p ++ xs) (FrameAcc.pushAll W step st xs) := by
  intro xs
  induction xs with
  | nil =>
    intro p st h
    simpa [FrameAcc.pushAll] using h
  | cons y t ih =>
    intro p st h
    have h1 := frameAccInv_push W step hstep hsW p st y h
    have h2 := ih (p ++ [y]) (FrameAcc.push W step st y) h1
    rw [List.append_assoc] at h2
    simpa [FrameAcc.pushAll] using h2

/-- Concatenating the window at 0 with the step-sized tails of the
windows at 1..n reassembles the stream prefix of length W + step*n. -/
theorem sliceFlatten (step W : ℕ) (hsW : step ≤ W) (xs : List ℚ) :
    ∀ n : ℕ, xs.take W ++ ((List.range n).map
        (fun j => ((xs.drop ((j + 1) * step)).take W).drop (W - step))).flatten
      = xs.take (W + step * n) := by
  intro n
  induction n with
  | zero => simp
  | succ m ih =>
    rw [List.range_succ, List.map_append, List.flatten_append, ← List.append_assoc, ih]
    simp only [List.map_singleton, List.flatten_cons, List.flatten_nil, List.append_nil]
    have hpiece : ((xs.drop ((m + 1) * step)).take W).drop (W - step) =
        (xs.drop (W + step * m)).take step := by
      rw [List.drop_take, List.drop_drop]
      have h1 : W - (W - step) = step := by omega
      have h2 : (m + 1) * step + (W - step) = W + step * m := by
        have h3 : (m + 1) * step = m * step + step := by ring
        have h4 : step * m = m * step := by ring
        rw [h3, h4]
        omega
      rw [h1, h2]
    rw [hpiece, ← List.take_add]
    congr 1
    ring

/-- C9: feeding any mono stream through the overlap accumulator with a
positive step smaller than the window yields exactly the W-sample
slices starting at successive step multiples, and concatenating the
first window with the final step-size samples of each later window
reconstructs the consumed stream prefix exactly. -/
theorem c9_overlap_lossless (W step : ℕ) (xs : List ℚ)
    (hstep : 0 < step) (hsW : step < W) :
    ((FrameAcc.pushAll W step ⟨[], []⟩ xs).windows =
      (List.range (FrameAcc.pushAll W step ⟨[], []⟩ xs).windows.length).map
        (fun k => (xs.drop (k * step)).take W)) ∧
    ((FrameAcc.pushAll W step ⟨[], []⟩ xs).windows ≠ [] →
      (FrameAcc.pushAll W step ⟨[], []⟩ xs).windows.headI ++
        ((FrameAcc.pushAll W step ⟨[], []⟩ xs).windows.tail.map
          (fun w => w.drop (W - step))).flatten =
      xs.take (W + step * ((FrameAcc.pushAll W step ⟨[], []⟩ xs).windows.length - 1))) := by
  have hW : 0 < W := lt_trans hstep hsW
  have hinv := frameAccInv_pushAll W step hstep hsW xs [] ⟨[], []⟩
    (frameAccInv_init W step hW)
  rw [List.nil_append] at hinv
  obtain ⟨hw, hlen, hbuf, hle, hlt⟩ := hinv
  refine ⟨hw, ?_⟩
  intro hne
  obtain ⟨n, hn⟩ : ∃ n, (FrameAcc.pushAll W step ⟨[], []⟩ xs).windows.length = n + 1 := by
    rcases Nat.exists_eq_succ_of_ne_zero (fun h0 => hne (List.length_eq_zero.mp h0)) with ⟨n, hn⟩
    exact ⟨n, hn⟩
  have hws2 : (FrameAcc.pushAll W step ⟨[], []⟩ xs).windows =
      (xs.take W) :: (List.range n).map (fun j => (xs.drop ((j + 1) * step)).take W) := by
    rw [hw, hn, List.range_succ_eq_map, List.map_cons, List.map_map]
    simp [Function.comp, Nat.zero_mul, Nat.succ_eq_add_one]
  rw [hws2]
  simp only [List.headI, List.tail, List.map_map, List.length_cons, List.length_map,
    List.length_range, Nat.add_sub_cancel, Function.comp]
  exact sliceFlatten step W hsW.le xs n

/-- C9 witness: window 4, step 2, on the stream 0..5: the emitted
windows' reassembly reproduces the six consumed samples. -/
theorem c9_overlap_lossless_witness :
    (0 < 2 ∧ 2 < 4) ∧
    (FrameAcc.pushAll 4 2 ⟨[], []⟩ [0, 1, 2, 3, 4, 5]).windows.headI ++
      ((FrameAcc.pushAll 4 2 ⟨[], []⟩ [0, 1, 2, 3, 4, 5]).windows.tail.map
        (fun w => w.drop (4 - 2))).flatten =
    [0, 1, 2, 3, 4, 5].take
      (4 + 2 * ((FrameAcc.pushAll 4 2 ⟨[], []⟩ [0, 1, 2, 3, 4, 5]).windows.length - 1)) := by
  refine ⟨⟨by norm_num, by norm_num⟩, ?_⟩
  have hne : (FrameAcc.pushAll 4 2 ⟨[], []⟩ [0, 1, 2, 3, 4, 5]).windows ≠ [] := by
    simp [FrameAcc.pushAll, FrameAcc.push, List.foldl]
  exact (c9_overlap_lossless 4 2 [0, 1, 2, 3, 4, 5] (by norm_num) (by norm_num)).2 hne

end Mixxxlab
